import Mathlib

/-!
Verification of the `find-your-file` backend core against its specification.

This file is a shallow embedding of `src/backend/lib/db.py` and
`src/backend/lib/cache.py`: the data model (Entry / Transaction / User /
Session rows), the entry lifecycle operations, the permission evaluator,
the session manager and the redis cache invalidation helper.

Modelling conventions:
* Timestamps (`datetime.now()`) are modelled as `Nat` values passed in
  explicitly; the `created_at` / `updated_at` columns are omitted because they
  are maintained uniformly by column defaults and no property concerns them.
* Freshly generated UUIDs (`uuid4()`) are passed in as explicit `String`
  arguments.
* Every mutating Python function runs inside one SQLAlchemy session whose
  changes reach the database only at `session.commit()`; an exception raised
  before the commit leaves the persistent store unchanged.  Mutating
  operations are therefore modelled as `Store → … → Except Err (α × Store)`:
  the updated store is produced only on success.  A function that marks rows
  for deletion but never calls `commit()` (such as `delete_session`) has its
  pending changes rolled back when the session closes, so it returns the
  store unchanged.
* Reads go through a redis read-through cache in the Python code; the store
  operations below are the cache-miss (loader) path, which is the
  authoritative row state.  The cache itself is modelled separately as a
  key/value list together with the `invalidate` helper.
* SQLite foreign-key enforcement is disabled in the source (the
  `PRAGMA foreign_keys=ON` hook is commented out), so the DDL-level
  `ondelete="CASCADE"` clauses never fire.  Hard deletes are constrained at
  the ORM level instead: the `transactions` relationship on `Entry` has no
  delete cascade and no `passive_deletes`, so flushing a deleted entry makes
  SQLAlchemy load the entry's existing transaction rows and de-associate
  them by setting their NOT NULL `entry_id` column to NULL — an UPDATE that
  the database rejects with an integrity error whenever such a row exists,
  rolling back the whole commit.  There is no ORM relationship from an entry
  to its child entries (`parent` is only the child-to-parent side), so child
  rows are never touched by a hard delete.
-/

namespace FYF

/-- Entry type enum from `db.py` (`EntryType`). -/
inductive EntryType
  | file
  | directory
  | other
deriving DecidableEq, Repr

/-- Entry permission enum from `db.py` (`EntryPermission`).  The Python member
`private` is spelled `private_` because `private` is a Lean keyword. -/
inductive EntryPermission
  | private_
  | public
  | public_readonly
  | inclusive
  | inclusive_readonly
  | other
deriving DecidableEq, Repr

/-- Entry status enum from `db.py` (`EntryStatus`). -/
inductive EntryStatus
  | pending
  | finalized
deriving DecidableEq, Repr

/-- Transaction action enum from `db.py` (`TransactionAction`). -/
inductive TransactionAction
  | add
  | finalize
  | remove
  | restore
  | delete
  | modify
  | other
deriving DecidableEq, Repr

/-- An `entry` table row (`class Entry` in `db.py`).  The `created_at` and
`updated_at` timestamp columns are omitted (see the file header). -/
structure Entry where
  id : String
  name : String
  size : Nat
  type : EntryType
  status : EntryStatus
  author_id : String
  parent_id : Option String
  is_deleted : Bool
  is_deleted_since : Option Nat
  permission : EntryPermission
  permission_inclusive : List String
deriving DecidableEq, Repr

/-- A `transaction` table row (`class Transaction` in `db.py`), without the
`created_at` column. -/
structure Transaction where
  id : String
  entry_id : String
  actor_id : String
  action : TransactionAction
deriving DecidableEq, Repr

/-- A `user` table row (`class User` in `db.py`), without the timestamp
columns. -/
structure User where
  id : String
  username : String
  display_name : String
  password : String
deriving DecidableEq, Repr

/-- A `session` table row (`class Session` in `db.py`), with `valid_until`
as a `Nat` timestamp and `created_at` omitted. -/
structure Session where
  id : String
  user_id : String
  valid_until : Nat
deriving DecidableEq, Repr

/-- The persistent relational store holding the four tables. -/
structure Store where
  entries : List Entry
  transactions : List Transaction
  users : List User
  sessions : List Session
deriving DecidableEq, Repr

/-- The domain error taxonomy of `lib/execption.py` (as listed in the spec,
section 7), plus two opaque infrastructure errors: the one raised by the
object-storage collaborator when `stat_object` finds no object, and the
database's integrity error raised at flush time when the ORM tries to null a
NOT NULL column (the de-association of a deleted entry's transaction rows). -/
inductive Err
  | EntryNotFound
  | UserNotFound
  | SessionNotFound
  | SessionTooLong
  | NotAuthor
  | StorageError
  | IntegrityError
deriving DecidableEq, Repr

/-- Lookup of a single entry row by primary key (`_get_entry` in `db.py`):
`SELECT * FROM entry WHERE entry.id = :id`, raising `EntryNotFound` when no
row matches. -/
def _get_entry (st : Store) (id : String) : Except Err Entry :=
  match st.entries.find? (fun e => e.id == id) with
  | some e => .ok e
  | none => .error Err.EntryNotFound

/-- Lookup of a single user row by primary key (`_get_user` in `db.py`),
raising `UserNotFound` when no row matches. -/
def _get_user (st : Store) (id : String) : Except Err User :=
  match st.users.find? (fun u => u.id == id) with
  | some u => .ok u
  | none => .error Err.UserNotFound

/-- Lookup of a single session row by primary key (`_get_user_session` in
`db.py`), raising `SessionNotFound` when no row matches. -/
def _get_user_session (st : Store) (id : String) : Except Err Session :=
  match st.sessions.find? (fun s => s.id == id) with
  | some s => .ok s
  | none => .error Err.SessionNotFound

/-- View authorization (`can_see_entry` in `db.py`, entry fetched by id):
`public` and `public_readonly` are viewable by everyone, `private` by nobody,
the two inclusive modes by the users listed in `permission_inclusive` (the
user row is fetched, so a missing user raises `UserNotFound` there), and any
other permission by nobody. -/
def can_see_entry (st : Store) (user_id : String) (entry_id : String) : Except Err Bool :=
  match _get_entry st entry_id with
  | .error e => .error e
  | .ok entry =>
      if entry.permission = EntryPermission.public ∨
          entry.permission = EntryPermission.public_readonly then
        .ok true
      else if entry.permission = EntryPermission.private_ then
        .ok false
      else if entry.permission = EntryPermission.inclusive ∨
          entry.permission = EntryPermission.inclusive_readonly then
        match _get_user st user_id with
        | .error e => .error e
        | .ok user =>
            if user.id ∈ entry.permission_inclusive then .ok true else .ok false
      else
        .ok false

/-- Modify authorization (`can_modify_entry` in `db.py`): the readonly modes
and `private` are modifiable by nobody; `inclusive` and `public` by the users
listed in `permission_inclusive`; any other permission by nobody. -/
def can_modify_entry (st : Store) (user_id : String) (entry_id : String) : Except Err Bool :=
  match _get_entry st entry_id with
  | .error e => .error e
  | .ok entry =>
      if entry.permission = EntryPermission.public_readonly ∨
          entry.permission = EntryPermission.inclusive_readonly ∨
          entry.permission = EntryPermission.private_ then
        .ok false
      else if entry.permission = EntryPermission.inclusive ∨
          entry.permission = EntryPermission.public then
        match _get_user st user_id with
        | .error e => .error e
        | .ok user =>
            if user.id ∈ entry.permission_inclusive then .ok true else .ok false
      else
        .ok false

theorem _get_entry_ok {st : Store} {id : String} {e : Entry}
    (h : _get_entry st id = .ok e) : e ∈ st.entries ∧ e.id = id := by
  unfold _get_entry at h
  cases hfind : st.entries.find? (fun x => x.id == id) with
  | none => rw [hfind] at h; exact absurd h (by simp)
  | some x =>
      rw [hfind] at h
      cases h
      refine ⟨List.mem_of_find?_eq_some hfind, ?_⟩
      have := List.find?_some hfind
      simpa using this

theorem _get_user_ok {st : Store} {id : String} {u : User}
    (h : _get_user st id = .ok u) : u ∈ st.users ∧ u.id = id := by
  unfold _get_user at h
  cases hfind : st.users.find? (fun x => x.id == id) with
  | none => rw [hfind] at h; exact absurd h (by simp)
  | some x =>
      rw [hfind] at h
      cases h
      refine ⟨List.mem_of_find?_eq_some hfind, ?_⟩
      have := List.find?_some hfind
      simpa using this

/-- Claim C1: for every entry permission mode and every existing entry and
user, `can_see_entry` and `can_modify_entry` return exactly the booleans of
the specification's matrix: `private` gives (view false, modify false);
`public` gives (view true, modify true iff the user id is in
`permission_inclusive`); `public_readonly` gives (view true, modify false);
`inclusive` gives (view and modify both true iff the user id is in
`permission_inclusive`); `inclusive_readonly` gives (view true iff the user
id is in `permission_inclusive`, modify false); `other` gives (view false,
modify false). -/
theorem permission_matrix (st : Store) (uid eid : String) (e : Entry) (u : User)
    (he : _get_entry st eid = .ok e) (hu : _get_user st uid = .ok u) :
    (e.permission = EntryPermission.private_ →
      can_see_entry st uid eid = .ok false ∧ can_modify_entry st uid eid = .ok false) ∧
    (e.permission = EntryPermission.public →
      can_see_entry st uid eid = .ok true ∧
      can_modify_entry st uid eid = .ok (decide (uid ∈ e.permission_inclusive))) ∧
    (e.permission = EntryPermission.public_readonly →
      can_see_entry st uid eid = .ok true ∧ can_modify_entry st uid eid = .ok false) ∧
    (e.permission = EntryPermission.inclusive →
      can_see_entry st uid eid = .ok (decide (uid ∈ e.permission_inclusive)) ∧
      can_modify_entry st uid eid = .ok (decide (uid ∈ e.permission_inclusive))) ∧
    (e.permission = EntryPermission.inclusive_readonly →
      can_see_entry st uid eid = .ok (decide (uid ∈ e.permission_inclusive)) ∧
      can_modify_entry st uid eid = .ok false) ∧
    (e.permission = EntryPermission.other →
      can_see_entry st uid eid = .ok false ∧ can_modify_entry st uid eid = .ok false) := by
  have huid : u.id = uid := (_get_user_ok hu).2
  subst huid
  refine ⟨?_, ?_, ?_, ?_, ?_, ?_⟩ <;>
    intro hp <;>
    constructor <;>
    simp [can_see_entry, can_modify_entry, he, hu, hp] <;>
    by_cases hmem : u.id ∈ e.permission_inclusive <;>
    simp [hmem]

def userC1 : User :=
  { id := "u1", username := "alice", display_name := "Alice", password := "pw" }

def entryC1 : Entry :=
  { id := "e1", name := "a.txt", size := 0, type := EntryType.file,
    status := EntryStatus.finalized, author_id := "u1", parent_id := none,
    is_deleted := false, is_deleted_since := none,
    permission := EntryPermission.inclusive, permission_inclusive := ["u1"] }

def storeC1 : Store :=
  { entries := [entryC1], transactions := [], users := [userC1], sessions := [] }

/-- Witness for claim C1: in a concrete store holding one `inclusive` entry
whose inclusive set contains the user, both hypotheses of
`permission_matrix` hold and the matrix row for `inclusive` yields view and
modify both true. -/
theorem permission_matrix_witness :
    _get_entry storeC1 "e1" = .ok entryC1 ∧
    can_see_entry storeC1 "u1" "e1" = .ok true ∧
    can_modify_entry storeC1 "u1" "e1" = .ok true := by
  refine ⟨by rfl, ?_⟩
  have h := permission_matrix storeC1 "u1" "e1" entryC1 userC1 (by rfl) (by rfl)
  have h2 := h.2.2.2.1 (by decide)
  constructor
  · have := h2.1
    simpa using this
  · have := h2.2
    simpa using this

/-- Boolean test used by one expansion step of the recursive CTE in
`_remove_entry` / `_restore_entry`: an entry row joins the frontier when its
`parent_id` is already in the accumulated id set and its own id is not. -/
def stepPred (s : List String) (e : Entry) : Bool :=
  (match e.parent_id with
   | some p => s.contains p
   | none => false) && !(s.contains e.id)

/-- One expansion step of the recursive CTE: union in the ids of all entry
rows whose `parent_id` is already in the set. -/
def closureStep (entries : List Entry) (s : List String) : List String :=
  s ++ (entries.filter (stepPred s)).map (fun e => e.id)

/-- Iterated CTE expansion. -/
def closureIter (entries : List Entry) : Nat → List String → List String
  | 0, s => s
  | n + 1, s => closureIter entries n (closureStep entries s)

/-- The id set computed by the recursive CTE of `_remove_entry` and
`_restore_entry`: the target id together with all ids reachable from it by
repeatedly adding children.  After `entries.length + 1` expansion steps the
iteration has provably reached its fixed point. -/
def entryClosure (entries : List Entry) (root : String) : List String :=
  closureIter entries (entries.length + 1) [root]

/-- An entry row with id `c` lists `p` as its parent. -/
def childOf (entries : List Entry) (p c : String) : Prop :=
  ∃ e ∈ entries, e.id = c ∧ e.parent_id = some p

/-- Specification-level notion of the descendant closure: `x` is `r` itself
or one of its transitive descendants via `parent_id` edges. -/
def isDescendant (entries : List Entry) (r x : String) : Prop :=
  Relation.ReflTransGen (childOf entries) r x

/-- An id set is closed when it already contains the id of every entry row
whose parent is in the set. -/
def ClosedUnder (entries : List Entry) (s : List String) : Prop :=
  ∀ e ∈ entries, ∀ p, e.parent_id = some p → p ∈ s → e.id ∈ s

theorem mem_closureStep_iff {entries : List Entry} {s : List String} {x : String} :
    x ∈ closureStep entries s ↔
      x ∈ s ∨ ∃ e ∈ entries, e.id = x ∧ ∃ p, e.parent_id = some p ∧ p ∈ s ∧ x ∉ s := by
  simp only [closureStep, List.mem_append, List.mem_map, List.mem_filter]
  constructor
  · rintro (hx | ⟨e, ⟨he, hpred⟩, rfl⟩)
    · exact Or.inl hx
    · unfold stepPred at hpred
      cases hp : e.parent_id with
      | none => rw [hp] at hpred; simp at hpred
      | some p =>
          rw [hp] at hpred
          simp at hpred
          exact Or.inr ⟨e, he, rfl, p, hp, hpred.1, hpred.2⟩
  · rintro (hx | ⟨e, he, rfl, p, hp, hps, hxs⟩)
    · exact Or.inl hx
    · refine Or.inr ⟨e, ⟨he, ?_⟩, rfl⟩
      unfold stepPred
      rw [hp]
      simp [List.elem_iff, hps, hxs]

theorem subset_closureStep (entries : List Entry) (s : List String) :
    s ⊆ closureStep entries s := fun _ hx => List.mem_append_left _ hx

theorem subset_closureIter (entries : List Entry) :
    ∀ (n : Nat) (s : List String), s ⊆ closureIter entries n s := by
  intro n
  induction n with
  | zero => intro s x hx; exact hx
  | succ n ih =>
      intro s x hx
      exact ih (closureStep entries s) (subset_closureStep entries s hx)

theorem closureStep_eq_of_closed {entries : List Entry} {s : List String}
    (h : ClosedUnder entries s) : closureStep entries s = s := by
  unfold closureStep
  have hnil : entries.filter (stepPred s) = [] := by
    rw [List.filter_eq_nil_iff]
    intro e he
    unfold stepPred
    cases hp : e.parent_id with
    | none => simp
    | some p =>
        by_cases hps : p ∈ s
        · have := h e he p hp hps
          simp [this]
        · simp [hps]
  rw [hnil]
  simp

theorem closed_of_closureStep_eq {entries : List Entry} {s : List String}
    (h : closureStep entries s = s) : ClosedUnder entries s := by
  intro e he p hp hps
  by_cases hx : e.id ∈ s
  · exact hx
  · have : e.id ∈ closureStep entries s :=
      mem_closureStep_iff.mpr (Or.inr ⟨e, he, rfl, p, hp, hps, hx⟩)
    rw [h] at this
    exact this

theorem closureIter_of_closed {entries : List Entry} {s : List String}
    (h : ClosedUnder entries s) : ∀ n, closureIter entries n s = s := by
  intro n
  induction n with
  | zero => rfl
  | succ n ih =>
      show closureIter entries n (closureStep entries s) = s
      rw [closureStep_eq_of_closed h]
      exact ih

/-- Cardinality of the set of entry ids not yet absorbed into `s`; the
termination measure of the CTE iteration. -/
def remCard (entries : List Entry) (s : List String) : Nat :=
  ((entries.map (fun e => e.id)).toFinset \ s.toFinset).card

theorem remCard_lt_of_not_closed {entries : List Entry} {s : List String}
    (h : ¬ ClosedUnder entries s) :
    remCard entries (closureStep entries s) < remCard entries s := by
  unfold ClosedUnder at h
  push_neg at h
  obtain ⟨e, he, p, hp, hps, hxs⟩ := h
  apply Finset.card_lt_card
  constructor
  · intro y hy
    simp only [Finset.mem_sdiff, List.mem_toFinset] at hy ⊢
    exact ⟨hy.1, fun hys => hy.2 (subset_closureStep entries s hys)⟩
  · intro hsub
    have hmem : e.id ∈ (entries.map (fun e => e.id)).toFinset \ s.toFinset := by
      simp only [Finset.mem_sdiff, List.mem_toFinset, List.mem_map]
      exact ⟨⟨e, he, rfl⟩, hxs⟩
    have := hsub hmem
    simp only [Finset.mem_sdiff, List.mem_toFinset] at this
    exact this.2 (mem_closureStep_iff.mpr (Or.inr ⟨e, he, rfl, p, hp, hps, hxs⟩))

theorem closed_closureIter (entries : List Entry) :
    ∀ (fuel : Nat) (s : List String), remCard entries s ≤ fuel →
      ClosedUnder entries (closureIter entries (fuel + 1) s) := by
  intro fuel
  induction fuel with
  | zero =>
      intro s hs
      have hcl : ClosedUnder entries s := by
        intro e he p hp hps
        by_contra hx
        have hmem : e.id ∈ (entries.map (fun e => e.id)).toFinset \ s.toFinset := by
          simp only [Finset.mem_sdiff, List.mem_toFinset, List.mem_map]
          exact ⟨⟨e, he, rfl⟩, hx⟩
        have : remCard entries s ≠ 0 := Finset.card_ne_zero_of_mem hmem
        omega
      rw [closureIter_of_closed hcl]
      exact hcl
  | succ fuel ih =>
      intro s hs
      by_cases hcl : ClosedUnder entries s
      · rw [closureIter_of_closed hcl]
        exact hcl
      · have hlt := remCard_lt_of_not_closed hcl
        have hle : remCard entries (closureStep entries s) ≤ fuel := by omega
        have := ih (closureStep entries s) hle
        exact this

theorem entryClosure_closed (entries : List Entry) (root : String) :
    ClosedUnder entries (entryClosure entries root) := by
  apply closed_closureIter
  unfold remCard
  calc ((entries.map (fun e => e.id)).toFinset \ [root].toFinset).card
      ≤ (entries.map (fun e => e.id)).toFinset.card :=
        Finset.card_le_card (Finset.sdiff_subset)
    _ ≤ (entries.map (fun e => e.id)).length := List.toFinset_card_le _
    _ = entries.length := List.length_map _ _

theorem closureIter_sound (entries : List Entry) (r : String) :
    ∀ (n : Nat) (s : List String), (∀ y ∈ s, isDescendant entries r y) →
      ∀ x ∈ closureIter entries n s, isDescendant entries r x := by
  intro n
  induction n with
  | zero => intro s hs x hx; exact hs x hx
  | succ n ih =>
      intro s hs x hx
      refine ih (closureStep entries s) ?_ x hx
      intro y hy
      rcases mem_closureStep_iff.mp hy with hys | ⟨e, he, rfl, p, hp, hps, _⟩
      · exact hs y hys
      · exact Relation.ReflTransGen.tail (hs p hps) ⟨e, he, rfl, hp⟩

/-- Correctness of the CTE fixed point: an id belongs to the computed closure
exactly when it is the root or one of its transitive descendants. -/
theorem mem_entryClosure {entries : List Entry} {root x : String} :
    x ∈ entryClosure entries root ↔ isDescendant entries root x := by
  constructor
  · intro hx
    refine closureIter_sound entries root _ [root] ?_ x hx
    intro y hy
    rcases List.mem_singleton.mp hy with rfl
    exact Relation.ReflTransGen.refl
  · intro h
    induction h with
    | refl => exact subset_closureIter entries _ [root] (List.mem_singleton.mpr rfl)
    | tail _ hbc ih =>
        obtain ⟨e, he, heid, hp⟩ := hbc
        rw [← heid]
        exact entryClosure_closed entries root e he _ hp ih

/-- The update payload of `update_entry` (`class UpdateEntry` in `db.py`):
all four fields optional, `None` meaning "leave unchanged". -/
structure UpdateEntry where
  name : Option String
  parent_id : Option String
  permission : Option EntryPermission
  permission_inclusive : Option (List String)
deriving DecidableEq, Repr

/-- Entry creation (`_add_entry` in `db.py`).  The function builds
`Entry(id=entry_id, name=name, type=type, author_id=author_id,
parent_id=parent_id, status=finalized if directory else pending)` and one
`add` Transaction with `actor_id=author_id`, adds both and commits; it never
raises a domain error.  Because `parent_id` is passed explicitly to the
constructor, the column default `"root"` is bypassed: a `none` argument is
stored as NULL, not as `"root"`.  The remaining columns take their declared
defaults (`size=0`, `is_deleted=False`, `is_deleted_since=None`,
`permission=private`, `permission_inclusive=[]`). -/
def _add_entry (st : Store) (entry_id tid : String) (name : String)
    (type : EntryType) (author_id : String) (parent_id : Option String) :
    (Entry × Transaction) × Store :=
  let entry : Entry :=
    { id := entry_id, name := name, size := 0, type := type,
      status := if type = EntryType.directory then EntryStatus.finalized
                else EntryStatus.pending,
      author_id := author_id,
      parent_id := parent_id,
      is_deleted := false, is_deleted_since := none,
      permission := EntryPermission.private_, permission_inclusive := [] }
  let tx : Transaction :=
    { id := tid, entry_id := entry_id, actor_id := author_id,
      action := TransactionAction.add }
  ((entry, tx),
   { st with entries := st.entries ++ [entry],
             transactions := st.transactions ++ [tx] })

/-- Metadata update (`_update_entry` in `db.py`).  The payload's fields are
applied in `model_dump()` order (`name`, `parent_id`, `permission`,
`permission_inclusive`); a `None` field is skipped.  When the `permission`
field is non-null and the actor is not the entry's author, `NotAuthor` is
raised before the commit, so the store is unchanged.  On success the row is
replaced and one `modify` Transaction is appended. -/
def _update_entry (st : Store) (id : String) (data : UpdateEntry)
    (actor_id tid : String) : Except Err (Entry × Store) :=
  match _get_entry st id with
  | .error e => .error e
  | .ok entry =>
      let entry := match data.name with
        | some v => { entry with name := v }
        | none => entry
      let entry := match data.parent_id with
        | some v => { entry with parent_id := some v }
        | none => entry
      match data.permission with
      | some v =>
          if actor_id ≠ entry.author_id then .error Err.NotAuthor
          else
            let entry := { entry with permission := v }
            let entry := match data.permission_inclusive with
              | some w => { entry with permission_inclusive := w }
              | none => entry
            let tx : Transaction :=
              { id := tid, entry_id := id, actor_id := actor_id,
                action := TransactionAction.modify }
            .ok (entry,
              { st with entries := st.entries.map (fun e => if e.id == id then entry else e),
                        transactions := st.transactions ++ [tx] })
      | none =>
          let entry := match data.permission_inclusive with
            | some w => { entry with permission_inclusive := w }
            | none => entry
          let tx : Transaction :=
            { id := tid, entry_id := id, actor_id := actor_id,
              action := TransactionAction.modify }
          .ok (entry,
            { st with entries := st.entries.map (fun e => if e.id == id then entry else e),
                      transactions := st.transactions ++ [tx] })

/-- Soft-delete marking applied by the bulk UPDATE of `_remove_entry` to the
rows whose id is in the computed closure. -/
def markDeleted (now : Nat) (cl : List String) (e : Entry) : Entry :=
  if e.id ∈ cl then { e with is_deleted := true, is_deleted_since := some now }
  else e

/-- Restore marking applied by the bulk UPDATE of `_restore_entry`. -/
def markRestored (cl : List String) (e : Entry) : Entry :=
  if e.id ∈ cl then { e with is_deleted := false, is_deleted_since := none }
  else e

/-- Soft delete (`_remove_entry` in `db.py`): fetches the entry (propagating
`EntryNotFound`), computes the recursive-CTE closure of the id, issues one
bulk UPDATE setting `is_deleted=True, is_deleted_since=now` over the whole
closure, appends one `remove` Transaction for the root entry with the acting
user as actor, and commits. -/
def _remove_entry (st : Store) (id actor_id tid : String) (now : Nat) :
    Except Err (Entry × Store) :=
  match _get_entry st id with
  | .error e => .error e
  | .ok entry =>
      let cl := entryClosure st.entries id
      let tx : Transaction :=
        { id := tid, entry_id := entry.id, actor_id := actor_id,
          action := TransactionAction.remove }
      .ok (entry,
        { st with entries := st.entries.map (markDeleted now cl),
                  transactions := st.transactions ++ [tx] })

/-- Restore (`_restore_entry` in `db.py`): same closure computation as
`_remove_entry`, one bulk UPDATE setting `is_deleted=False,
is_deleted_since=None` over the closure, and one `restore` Transaction whose
actor is the entry's author. -/
def _restore_entry (st : Store) (id tid : String) : Except Err (Entry × Store) :=
  match _get_entry st id with
  | .error e => .error e
  | .ok entry =>
      let cl := entryClosure st.entries id
      let tx : Transaction :=
        { id := tid, entry_id := entry.id, actor_id := entry.author_id,
          action := TransactionAction.restore }
      .ok (entry,
        { st with entries := st.entries.map (markRestored cl),
                  transactions := st.transactions ++ [tx] })

/-- Hard delete (`delete_entry` in `db.py`): fetches the entry, adds one
`delete` Transaction, marks the single entry row for deletion with
`session.delete`, optionally asks the object-storage collaborator to purge
the backing object (no store effect), and commits.  At flush time the
`transactions` relationship — which has no delete cascade and no
`passive_deletes` — makes SQLAlchemy load the entry's existing transaction
rows and de-associate them by setting their NOT NULL `entry_id` to NULL:
whenever such a row exists (every API-created entry holds at least the `add`
transaction written by `_add_entry`) the database raises its integrity error
and the whole commit — the audit insert and the row delete included — is
rolled back.  Only when no committed transaction row references the entry
does the flush succeed: the single entry row is removed, the fresh audit row
is inserted (its `entry_id` left dangling, foreign-key enforcement being
disabled), and child entry rows are untouched (`Entry` has no relationship
to its children and the DDL cascade on `parent_id` never fires). -/
def delete_entry (st : Store) (id actor_id tid : String)
    (remove_object : Bool) : Except Err Store :=
  match _get_entry st id with
  | .error e => .error e
  | .ok entry =>
      if st.transactions.any (fun t => t.entry_id == id) then
        .error Err.IntegrityError
      else
        let tx : Transaction :=
          { id := tid, entry_id := entry.id, actor_id := actor_id,
            action := TransactionAction.delete }
        .ok { st with entries := st.entries.filter (fun e => e.id ≠ id),
                      transactions := st.transactions ++ [tx] }

/-- Finalization (`_finalize` in `db.py`): fetches the entry, stats the
backing object (an absent object raises the collaborator's storage error),
sets `size = metadata.size or 0` and `status = finalized`, and appends one
`finalize` Transaction built as
`Transaction(action=finalize, actor_id=entry.id, entry_id=entry.id)` — the
actor recorded is the entry's own id.  `objects` models the object store:
`objects oid = some sz` when the object exists with (possibly null) size
`sz`. -/
def _finalize (objects : String → Option (Option Nat)) (st : Store)
    (id tid : String) : Except Err (Entry × Store) :=
  match _get_entry st id with
  | .error e => .error e
  | .ok entry =>
      match objects entry.id with
      | none => .error Err.StorageError
      | some sz =>
          let entry := { entry with size := sz.getD 0,
                                    status := EntryStatus.finalized }
          let tx : Transaction :=
            { id := tid, entry_id := entry.id, actor_id := entry.id,
              action := TransactionAction.finalize }
          .ok (entry,
            { st with entries := st.entries.map (fun e => if e.id == id then entry else e),
                      transactions := st.transactions ++ [tx] })

/-- Session deletion (`delete_session` in `db.py`): fetches the session row
(raising `SessionNotFound` when absent), marks it for deletion with
`session.delete` and deletes the redis key — but the block never calls
`session.commit()`, so when the SQLAlchemy session closes the pending DELETE
is rolled back and the store is returned unchanged. -/
def delete_session (st : Store) (id : String) : Except Err Store :=
  match _get_user_session st id with
  | .error e => .error e
  | .ok _sess =>
      let _pending : Store :=
        { st with sessions := st.sessions.filter (fun s => s.id ≠ id) }
      .ok st

/-- The redis cache: a list of key / serialized-value pairs. -/
abbrev Cache := List (String × String)

/-- Cache read (`client.get`). -/
def cacheGet (c : Cache) (k : String) : Option String :=
  (c.find? (fun kv => kv.1 == k)).map (fun kv => kv.2)

/-- The keys actually deleted by `invalidate(cache_key, *cache_keys)` in
`cache.py`: the body evaluates `client.delete(cache_key, *cache_key)`,
splatting the characters of the first key, so it deletes the first key and
every single-character key spelled by it; the `cache_keys` variadic tuple is
never used. -/
def invalidatedKeys (cache_key : String) : List String :=
  cache_key :: cache_key.data.map (fun c => String.mk [c])

/-- Cache invalidation (`invalidate` in `cache.py`).  The extra keys in
`cache_keys` are ignored by the body (see `invalidatedKeys`). -/
def invalidate (c : Cache) (cache_key : String) (cache_keys : List String) : Cache :=
  c.filter (fun kv => !((invalidatedKeys cache_key).contains kv.1))

theorem markDeleted_keys (now : Nat) (cl : List String) (e : Entry) :
    (markDeleted now cl e).id = e.id ∧ (markDeleted now cl e).parent_id = e.parent_id := by
  unfold markDeleted
  split <;> simp

theorem markRestored_keys (cl : List String) (e : Entry) :
    (markRestored cl e).id = e.id ∧ (markRestored cl e).parent_id = e.parent_id := by
  unfold markRestored
  split <;> simp

/-- Two entry lists agree pointwise on the columns the closure computation
reads (`id` and `parent_id`). -/
def KeysEq (l1 l2 : List Entry) : Prop :=
  List.Forall₂ (fun a b => a.id = b.id ∧ a.parent_id = b.parent_id) l1 l2

theorem keysEq_map (l : List Entry) (f : Entry → Entry)
    (hf : ∀ e, (f e).id = e.id ∧ (f e).parent_id = e.parent_id) :
    KeysEq l (l.map f) := by
  induction l with
  | nil => exact List.Forall₂.nil
  | cons a t ih => exact List.Forall₂.cons ⟨(hf a).1.symm, (hf a).2.symm⟩ ih

theorem stepPred_congr {s : List String} {a b : Entry}
    (h1 : a.id = b.id) (h2 : a.parent_id = b.parent_id) :
    stepPred s a = stepPred s b := by
  unfold stepPred
  rw [h1, h2]

theorem closureStep_congr {l1 l2 : List Entry} (h : KeysEq l1 l2) :
    ∀ s, closureStep l1 s = closureStep l2 s := by
  intro s
  unfold closureStep
  congr 1
  induction h with
  | nil => rfl
  | cons hab htail ih =>
      rename_i a b t1 t2
      rw [List.filter_cons, List.filter_cons, stepPred_congr hab.1 hab.2]
      cases hb : stepPred s b with
      | false => simp only [Bool.false_eq_true, if_false]; exact ih
      | true => simp only [if_true]; rw [List.map_cons, List.map_cons, hab.1, ih]

theorem closureIter_congr {l1 l2 : List Entry} (h : KeysEq l1 l2) :
    ∀ n s, closureIter l1 n s = closureIter l2 n s := by
  intro n
  induction n with
  | zero => intro s; rfl
  | succ n ih =>
      intro s
      show closureIter l1 n (closureStep l1 s) = closureIter l2 n (closureStep l2 s)
      rw [closureStep_congr h, ih]

theorem entryClosure_congr {l1 l2 : List Entry} (h : KeysEq l1 l2) (root : String) :
    entryClosure l1 root = entryClosure l2 root := by
  unfold entryClosure
  rw [h.length_eq, closureIter_congr h]

theorem map_id_of_forall {α : Type} (l : List α) (f : α → α)
    (h : ∀ x ∈ l, f x = x) : l.map f = l := by
  induction l with
  | nil => rfl
  | cons a t ih =>
      rw [List.map_cons, h a (List.mem_cons_self a t),
        ih (fun x hx => h x (List.mem_cons_of_mem a hx))]

/-- Claim C2: for every existing entry E and every set of entries that are
E's transitive descendants via `parent_id`, a successful
`_remove_entry E actor` sets `is_deleted = true` and a non-null
`is_deleted_since` on E and on every descendant, leaves every entry outside
that closure untouched, and appends exactly one `remove` Transaction whose
`entry_id` is E (none for the descendants). -/
theorem remove_entry_spec (st : Store) (eid actor tid : String) (now : Nat)
    (e : Entry) (st' : Store)
    (h : _remove_entry st eid actor tid now = .ok (e, st')) :
    (∀ x ∈ st.entries, isDescendant st.entries eid x.id →
        { x with is_deleted := true, is_deleted_since := some now } ∈ st'.entries) ∧
    (∀ x ∈ st.entries, ¬ isDescendant st.entries eid x.id → x ∈ st'.entries) ∧
    st'.transactions = st.transactions ++
      [{ id := tid, entry_id := eid, actor_id := actor,
         action := TransactionAction.remove }] := by
  unfold _remove_entry at h
  cases hg : _get_entry st eid with
  | error err => rw [hg] at h; exact absurd h (by simp)
  | ok ent =>
      rw [hg] at h
      have heid : ent.id = eid := (_get_entry_ok hg).2
      simp only [Except.ok.injEq, Prod.mk.injEq] at h
      obtain ⟨rfl, rfl⟩ := h
      refine ⟨?_, ?_, ?_⟩
      · intro x hx hdesc
        have hcl : x.id ∈ entryClosure st.entries eid := mem_entryClosure.mpr hdesc
        exact List.mem_map.mpr ⟨x, hx, by simp [markDeleted, hcl]⟩
      · intro x hx hdesc
        have hcl : x.id ∉ entryClosure st.entries eid :=
          fun hc => hdesc (mem_entryClosure.mp hc)
        exact List.mem_map.mpr ⟨x, hx, by simp [markDeleted, hcl]⟩
      · simp only []
        rw [heid]

def entryC2a : Entry :=
  { id := "e1", name := "docs", size := 0, type := EntryType.directory,
    status := EntryStatus.finalized, author_id := "u1", parent_id := none,
    is_deleted := false, is_deleted_since := none,
    permission := EntryPermission.private_, permission_inclusive := [] }

def entryC2b : Entry :=
  { id := "e2", name := "a.txt", size := 3, type := EntryType.file,
    status := EntryStatus.finalized, author_id := "u1", parent_id := some "e1",
    is_deleted := false, is_deleted_since := none,
    permission := EntryPermission.private_, permission_inclusive := [] }

def storeC2 : Store :=
  { entries := [entryC2a, entryC2b], transactions := [], users := [], sessions := [] }

def storeC2r : Store :=
  { entries := [{ entryC2a with is_deleted := true, is_deleted_since := some 7 },
                { entryC2b with is_deleted := true, is_deleted_since := some 7 }],
    transactions := [{ id := "t1", entry_id := "e1", actor_id := "u1",
                       action := TransactionAction.remove }],
    users := [], sessions := [] }

/-- Witness for claim C2: removing the directory `e1` in a concrete two-row
store soft-deletes both `e1` and its child `e2` and appends exactly one
`remove` Transaction for `e1`. -/
theorem remove_entry_spec_witness :
    _remove_entry storeC2 "e1" "u1" "t1" 7 = .ok (entryC2a, storeC2r) ∧
    ({ entryC2b with is_deleted := true, is_deleted_since := some 7 } ∈ storeC2r.entries) ∧
    storeC2r.transactions = storeC2.transactions ++
      [{ id := "t1", entry_id := "e1", actor_id := "u1",
         action := TransactionAction.remove }] := by
  have hrem : _remove_entry storeC2 "e1" "u1" "t1" 7 = .ok (entryC2a, storeC2r) := by rfl
  have h := remove_entry_spec storeC2 "e1" "u1" "t1" 7 entryC2a storeC2r hrem
  refine ⟨hrem, ?_, h.2.2⟩
  refine h.1 entryC2b (by simp [storeC2]) ?_
  exact mem_entryClosure.mp (by decide)

/-- Claim C3: `_restore_entry E` executed after `_remove_entry E` resets
`is_deleted = false` and `is_deleted_since = null` on exactly the descendant
closure that the removal affected, leaves entries outside the closure
untouched, and a second `_restore_entry E` leaves every entry row (in
particular its `is_deleted` / `is_deleted_since` fields) unchanged from the
first restore's result. -/
theorem restore_after_remove_spec (st : Store) (eid actor tid1 tid2 : String)
    (now : Nat) (e1 e2 : Entry) (st1 st2 : Store)
    (h1 : _remove_entry st eid actor tid1 now = .ok (e1, st1))
    (h2 : _restore_entry st1 eid tid2 = .ok (e2, st2)) :
    (∀ x ∈ st.entries, isDescendant st.entries eid x.id →
        { x with is_deleted := false, is_deleted_since := none } ∈ st2.entries) ∧
    (∀ x ∈ st.entries, ¬ isDescendant st.entries eid x.id → x ∈ st2.entries) ∧
    (∀ (tid3 : String) (e3 : Entry) (st3 : Store),
        _restore_entry st2 eid tid3 = .ok (e3, st3) → st3.entries = st2.entries) := by
  unfold _remove_entry at h1
  cases hg1 : _get_entry st eid with
  | error err => rw [hg1] at h1; exact absurd h1 (by simp)
  | ok ent1 =>
      rw [hg1] at h1
      simp only [Except.ok.injEq, Prod.mk.injEq] at h1
      obtain ⟨rfl, rfl⟩ := h1
      unfold _restore_entry at h2
      set stRem : Store :=
        { st with
          entries := st.entries.map (markDeleted now (entryClosure st.entries eid)),
          transactions := st.transactions ++
            [{ id := tid1, entry_id := ent1.id, actor_id := actor,
               action := TransactionAction.remove }] } with hstRem
      cases hg2 : _get_entry stRem eid with
      | error err => rw [hg2] at h2; exact absurd h2 (by simp)
      | ok ent2 =>
          rw [hg2] at h2
          simp only [Except.ok.injEq, Prod.mk.injEq] at h2
          obtain ⟨rfl, rfl⟩ := h2
          have hkeys1 : KeysEq st.entries stRem.entries :=
            keysEq_map _ _ (markDeleted_keys now (entryClosure st.entries eid))
          have hclEq : entryClosure stRem.entries eid = entryClosure st.entries eid :=
            (entryClosure_congr hkeys1 eid).symm
          have hentries2 : stRem.entries.map (markRestored (entryClosure stRem.entries eid))
              = st.entries.map (fun x =>
                  markRestored (entryClosure st.entries eid)
                    (markDeleted now (entryClosure st.entries eid) x)) := by
            rw [hclEq]
            show (st.entries.map _).map _ = _
            rw [List.map_map]
            rfl
          refine ⟨?_, ?_, ?_⟩
          · intro x hx hdesc
            have hcl : x.id ∈ entryClosure st.entries eid := mem_entryClosure.mpr hdesc
            simp only [hentries2]
            exact List.mem_map.mpr ⟨x, hx, by simp [markDeleted, markRestored, hcl]⟩
          · intro x hx hdesc
            have hcl : x.id ∉ entryClosure st.entries eid :=
              fun hc => hdesc (mem_entryClosure.mp hc)
            simp only [hentries2]
            exact List.mem_map.mpr ⟨x, hx, by simp [markDeleted, markRestored, hcl]⟩
          · intro tid3 e3 st3 h3
            unfold _restore_entry at h3
            cases hg3 : _get_entry { stRem with
                entries := stRem.entries.map (markRestored (entryClosure stRem.entries eid)),
                transactions := stRem.transactions ++
                  [{ id := tid2, entry_id := ent2.id, actor_id := ent2.author_id,
                     action := TransactionAction.restore }] } eid with
            | error err => rw [hg3] at h3; exact absurd h3 (by simp)
            | ok ent3 =>
                rw [hg3] at h3
                simp only [Except.ok.injEq, Prod.mk.injEq] at h3
                obtain ⟨rfl, rfl⟩ := h3
                have hkeys2 : KeysEq st.entries
                    (stRem.entries.map (markRestored (entryClosure stRem.entries eid))) := by
                  rw [hentries2]
                  refine keysEq_map _ _ ?_
                  intro x
                  constructor
                  · rw [(markRestored_keys _ _).1, (markDeleted_keys _ _ _).1]
                  · rw [(markRestored_keys _ _).2, (markDeleted_keys _ _ _).2]
                have hclEq2 : entryClosure
                    (stRem.entries.map (markRestored (entryClosure stRem.entries eid))) eid
                      = entryClosure st.entries eid :=
                  (entryClosure_congr hkeys2 eid).symm
                simp only []
                rw [hclEq2]
                apply map_id_of_forall
                intro y hy
                rw [hentries2] at hy
                obtain ⟨x, hx, rfl⟩ := List.mem_map.mp hy
                by_cases hcl : x.id ∈ entryClosure st.entries eid
                · simp [markDeleted, markRestored, hcl]
                · simp [markDeleted, markRestored, hcl]

def entryC3 : Entry :=
  { id := "e1", name := "b.txt", size := 2, type := EntryType.file,
    status := EntryStatus.finalized, author_id := "u1", parent_id := none,
    is_deleted := false, is_deleted_since := none,
    permission := EntryPermission.private_, permission_inclusive := [] }

def storeC3 : Store :=
  { entries := [entryC3], transactions := [], users := [], sessions := [] }

def storeC3a : Store :=
  { entries := [{ entryC3 with is_deleted := true, is_deleted_since := some 5 }],
    transactions := [{ id := "t1", entry_id := "e1", actor_id := "u1",
                       action := TransactionAction.remove }],
    users := [], sessions := [] }

def storeC3b : Store :=
  { entries := [entryC3],
    transactions := [{ id := "t1", entry_id := "e1", actor_id := "u1",
                       action := TransactionAction.remove },
                     { id := "t2", entry_id := "e1", actor_id := "u1",
                       action := TransactionAction.restore }],
    users := [], sessions := [] }

/-- Witness for claim C3: in a concrete one-row store, remove followed by
restore brings the row back to its original state, and any further restore
leaves the entry rows unchanged. -/
theorem restore_after_remove_spec_witness :
    _remove_entry storeC3 "e1" "u1" "t1" 5 = .ok (entryC3, storeC3a) ∧
    _restore_entry storeC3a "e1" "t2" =
      .ok ({ entryC3 with is_deleted := true, is_deleted_since := some 5 }, storeC3b) ∧
    (∀ (tid3 : String) (e3 : Entry) (st3 : Store),
        _restore_entry storeC3b "e1" tid3 = .ok (e3, st3) →
          st3.entries = storeC3b.entries) := by
  have h1 : _remove_entry storeC3 "e1" "u1" "t1" 5 = .ok (entryC3, storeC3a) := by rfl
  have h2 : _restore_entry storeC3a "e1" "t2" =
      .ok ({ entryC3 with is_deleted := true, is_deleted_since := some 5 }, storeC3b) := by rfl
  exact ⟨h1, h2,
    (restore_after_remove_spec storeC3 "e1" "u1" "t1" "t2" 5 entryC3
      { entryC3 with is_deleted := true, is_deleted_since := some 5 }
      storeC3a storeC3b h1 h2).2.2⟩

def cacheC4 : Cache :=
  [("Entry:e1", "entry-json"), ("Entries#user=u1", "list-json")]

/-- Claim C4, refuted on the code: `invalidate(k1, k2)` is claimed to delete
every given key, but the body splats the characters of the first key
(`client.delete(cache_key, *cache_key)`) and ignores the `cache_keys` tuple,
so the second key passed by `delete_entry` — the owner's list key — survives
and a subsequent read still returns the stale cached value. -/
theorem invalidate_keeps_second_key :
    invalidate cacheC4 "Entry:e1" ["Entries#user=u1"] =
      [("Entries#user=u1", "list-json")] ∧
    cacheGet (invalidate cacheC4 "Entry:e1" ["Entries#user=u1"]) "Entries#user=u1" =
      some "list-json" :=
  ⟨rfl, rfl⟩

def entryC5a : Entry :=
  { id := "e1", name := "c.txt", size := 9, type := EntryType.file,
    status := EntryStatus.finalized, author_id := "u1", parent_id := none,
    is_deleted := false, is_deleted_since := none,
    permission := EntryPermission.private_, permission_inclusive := [] }

def storeC5 : Store :=
  { entries := [entryC5a],
    transactions := [{ id := "t0", entry_id := "e1", actor_id := "u1",
                       action := TransactionAction.add }],
    users := [], sessions := [] }

/-- Claim C5, refuted on the code: for an API-created entry — which always
holds at least the `add` transaction row written by `_add_entry` — the hard
delete never completes.  The flush de-associates the existing transaction
row by setting its NOT NULL `entry_id` to NULL, the database raises its
integrity error, and the rollback discards the freshly appended `delete`
audit transaction together with the row removal, so the audit transaction
does not exist in the store afterwards. -/
theorem delete_entry_audit_rolled_back :
    delete_entry storeC5 "e1" "u1" "t1" true = .error Err.IntegrityError ∧
    (∀ st', delete_entry storeC5 "e1" "u1" "t1" true ≠ .ok st') := by
  refine ⟨rfl, ?_⟩
  intro st' hcon
  rw [show delete_entry storeC5 "e1" "u1" "t1" true = .error Err.IntegrityError
    from rfl] at hcon
  exact Except.noConfusion hcon

def entryC6a : Entry :=
  { id := "e1", name := "dir", size := 0, type := EntryType.directory,
    status := EntryStatus.finalized, author_id := "u1", parent_id := none,
    is_deleted := false, is_deleted_since := none,
    permission := EntryPermission.private_, permission_inclusive := [] }

def entryC6b : Entry :=
  { id := "e2", name := "kid.txt", size := 1, type := EntryType.file,
    status := EntryStatus.finalized, author_id := "u1", parent_id := some "e1",
    is_deleted := false, is_deleted_since := none,
    permission := EntryPermission.private_, permission_inclusive := [] }

def storeC6 : Store :=
  { entries := [entryC6a, entryC6b], transactions := [], users := [], sessions := [] }

def storeC6tx : Store :=
  { entries := [entryC6a, entryC6b],
    transactions := [{ id := "t0", entry_id := "e1", actor_id := "u1",
                       action := TransactionAction.add }],
    users := [], sessions := [] }

/-- Counterexample to claim C6 as stated: for the existing parent entry `e1`
of a concrete store that also holds `e1`'s `add` transaction (as every
API-created entry does), `delete_entry` raises the database's integrity
error instead of removing E's row — so it is not the case that the hard
delete removes E's own row for every existing entry. -/
theorem delete_entry_claim_counterexample :
    delete_entry storeC6tx "e1" "u1" "t1" false = .error Err.IntegrityError ∧
    (∀ st', delete_entry storeC6tx "e1" "u1" "t1" false ≠ .ok st') := by
  refine ⟨rfl, ?_⟩
  intro st' hcon
  rw [show delete_entry storeC6tx "e1" "u1" "t1" false = .error Err.IntegrityError
    from rfl] at hcon
  exact Except.noConfusion hcon

/-- Claim C6 (amended): for every existing entry E, when no transaction row
references E the hard delete succeeds and removes only E's own row — every
other entry, including E's children (rows whose `parent_id` is E) and
siblings, keeps all of its fields unchanged; when some transaction row
references E (as for every API-created entry) the flush fails with the
database's integrity error and no row changes at all.  In neither case does
the hard delete cascade to E's descendant closure. -/
theorem delete_entry_non_cascading (st : Store) (eid actor tid : String)
    (purge : Bool) (e : Entry)
    (hget : _get_entry st eid = .ok e) :
    ((∀ t ∈ st.transactions, t.entry_id ≠ eid) →
      ∃ st', delete_entry st eid actor tid purge = .ok st' ∧
        st'.entries = st.entries.filter (fun x => x.id ≠ eid) ∧
        (∀ x ∈ st.entries, x.id ≠ eid → x ∈ st'.entries) ∧
        (∀ x ∈ st.entries, x.parent_id = some eid → x.id ≠ eid → x ∈ st'.entries) ∧
        (∀ x ∈ st'.entries, x ∈ st.entries) ∧
        st'.transactions = st.transactions ++
          [{ id := tid, entry_id := eid, actor_id := actor,
             action := TransactionAction.delete }]) ∧
    ((∃ t ∈ st.transactions, t.entry_id = eid) →
      delete_entry st eid actor tid purge = .error Err.IntegrityError) := by
  have heid : e.id = eid := (_get_entry_ok hget).2
  constructor
  · intro hnotx
    have hany : st.transactions.any (fun t => t.entry_id == eid) = false := by
      rw [List.any_eq_false]
      intro t ht
      simpa using hnotx t ht
    refine ⟨{ st with
        entries := st.entries.filter (fun x => x.id ≠ eid),
        transactions := st.transactions ++
          [{ id := tid, entry_id := eid, actor_id := actor,
             action := TransactionAction.delete }] }, ?_, rfl, ?_, ?_, ?_, rfl⟩
    · unfold delete_entry
      rw [hget]
      simp [hany, heid]
    · intro x hx hne
      exact List.mem_filter.mpr ⟨hx, by simp [hne]⟩
    · intro x hx _ hne
      exact List.mem_filter.mpr ⟨hx, by simp [hne]⟩
    · intro x hx
      exact (List.mem_filter.mp hx).1
  · intro htx
    obtain ⟨t, ht, hteq⟩ := htx
    have hany : st.transactions.any (fun t => t.entry_id == eid) = true :=
      List.any_eq_true.mpr ⟨t, ht, by simp [hteq]⟩
    unfold delete_entry
    rw [hget]
    simp [hany]

/-- Witness for claim C6: hard-deleting the parent `e1` in a concrete
transaction-free store succeeds and leaves the child `e2` present and
unchanged. -/
theorem delete_entry_non_cascading_witness :
    _get_entry storeC6 "e1" = .ok entryC6a ∧
    (∃ st', delete_entry storeC6 "e1" "u1" "t1" false = .ok st' ∧
      entryC6b ∈ st'.entries) := by
  have hget : _get_entry storeC6 "e1" = .ok entryC6a := by rfl
  have h := delete_entry_non_cascading storeC6 "e1" "u1" "t1" false entryC6a hget
  obtain ⟨st', heq, _, _, hchild, _, _⟩ := h.1 (by simp [storeC6])
  exact ⟨hget, st', heq, hchild entryC6b (by simp [storeC6]) rfl (by decide)⟩

/-- Claim C7: for every existing entry E and update payload whose
`permission` field is non-null, `_update_entry` raises `NotAuthor` when the
actor differs from E's author (the transaction never commits, so the store
is unchanged); with the author as actor the same call succeeds, applies the
permission change, and applies exactly the non-null fields of the payload —
null fields are never applied. -/
theorem update_permission_author_gate (st : Store) (eid actor tid : String)
    (d : UpdateEntry) (e : Entry) (p : EntryPermission)
    (hget : _get_entry st eid = .ok e)
    (hperm : d.permission = some p) :
    (actor ≠ e.author_id → _update_entry st eid d actor tid = .error Err.NotAuthor) ∧
    (actor = e.author_id →
      (∃ r, _update_entry st eid d actor tid = .ok r) ∧
      (∀ (e' : Entry) (st' : Store), _update_entry st eid d actor tid = .ok (e', st') →
        e'.permission = p ∧
        e'.name = d.name.getD e.name ∧
        e'.parent_id = (if d.parent_id.isSome then d.parent_id else e.parent_id) ∧
        e'.permission_inclusive = d.permission_inclusive.getD e.permission_inclusive ∧
        e'.id = e.id ∧ e'.author_id = e.author_id ∧ e'.size = e.size ∧
        e'.status = e.status ∧ e'.type = e.type ∧
        e'.is_deleted = e.is_deleted ∧ e'.is_deleted_since = e.is_deleted_since ∧
        st'.entries = st.entries.map (fun x => if x.id == eid then e' else x) ∧
        st'.transactions = st.transactions ++
          [{ id := tid, entry_id := eid, actor_id := actor,
             action := TransactionAction.modify }])) := by
  rcases d with ⟨dn, dp, dperm, dpi⟩
  have hdp : dperm = some p := hperm
  subst hdp
  constructor
  · intro hne
    cases dn <;> cases dp <;>
      (unfold _update_entry; rw [hget]; simp [hne])
  · intro hact
    constructor
    · cases dn <;> cases dp <;>
        (unfold _update_entry; rw [hget]; simp [hact])
    · intro e' st' heq
      cases dn <;> cases dp <;> cases dpi <;>
        (unfold _update_entry at heq;
         rw [hget] at heq;
         simp [hact] at heq;
         obtain ⟨h1, h2⟩ := heq;
         subst h1; subst h2;
         simp [hact])

def entryC7 : Entry :=
  { id := "e1", name := "x.txt", size := 4, type := EntryType.file,
    status := EntryStatus.finalized, author_id := "u1", parent_id := none,
    is_deleted := false, is_deleted_since := none,
    permission := EntryPermission.private_, permission_inclusive := [] }

def storeC7 : Store :=
  { entries := [entryC7], transactions := [], users := [], sessions := [] }

def updC7 : UpdateEntry :=
  { name := some "y.txt", parent_id := none,
    permission := some EntryPermission.public, permission_inclusive := none }

/-- Witness for claim C7: a permission-changing payload applied by the
non-author `u2` fails with `NotAuthor`, and the same payload applied by the
author `u1` succeeds. -/
theorem update_permission_author_gate_witness :
    _get_entry storeC7 "e1" = .ok entryC7 ∧
    _update_entry storeC7 "e1" updC7 "u2" "t1" = .error Err.NotAuthor ∧
    (∃ r, _update_entry storeC7 "e1" updC7 "u1" "t1" = .ok r) := by
  have hget : _get_entry storeC7 "e1" = .ok entryC7 := by rfl
  have hden := update_permission_author_gate storeC7 "e1" "u2" "t1" updC7 entryC7
    EntryPermission.public hget rfl
  have hok := update_permission_author_gate storeC7 "e1" "u1" "t1" updC7 entryC7
    EntryPermission.public hget rfl
  exact ⟨hget, hden.1 (by decide), (hok.2 (by rfl)).1⟩

def sessionC8 : Session := { id := "s1", user_id := "u1", valid_until := 100 }

def storeC8 : Store :=
  { entries := [], transactions := [], users := [], sessions := [sessionC8] }

/-- Claim C8, refuted on the code: `delete_session` fetches the session row
and marks it for deletion, but the function never calls `session.commit()`,
so the pending DELETE is rolled back when the SQLAlchemy session closes: the
row is still in the store and a subsequent `_get_user_session` succeeds
instead of failing with `SessionNotFound`. -/
theorem delete_session_keeps_row :
    delete_session storeC8 "s1" = .ok storeC8 ∧
    _get_user_session storeC8 "s1" = .ok sessionC8 ∧
    _get_user_session storeC8 "s1" ≠ .error Err.SessionNotFound := by
  refine ⟨rfl, rfl, ?_⟩
  intro hcon
  rw [show _get_user_session storeC8 "s1" = .ok sessionC8 from rfl] at hcon
  exact Except.noConfusion hcon

def storeC9 : Store :=
  { entries := [], transactions := [], users := [], sessions := [] }

/-- Claim C9, refuted on the code: `_add_entry` passes `parent_id=None`
explicitly to the `Entry` constructor when no parent is supplied, which
bypasses the column default `"root"`; the created entry's `parent_id` is
null, not the root sentinel string `"root"`. -/
theorem add_entry_top_level_parent_is_null :
    ((_add_entry storeC9 "e1" "t1" "a.txt" EntryType.file "u1" none).1.1).parent_id
        = none ∧
    ((_add_entry storeC9 "e1" "t1" "a.txt" EntryType.file "u1" none).1.1).parent_id
        ≠ some "root" := by
  refine ⟨rfl, ?_⟩
  intro hcon
  rw [show ((_add_entry storeC9 "e1" "t1" "a.txt" EntryType.file "u1" none).1.1).parent_id
      = none from rfl] at hcon
  exact Option.noConfusion hcon

/-- Claim C10 (implicit): a successful `_finalize` appends a `finalize`
Transaction whose `actor_id` is the entry's own id — the function takes no
acting user at all, unlike every other mutating operation. -/
theorem finalize_actor_is_entry_id (objects : String → Option (Option Nat))
    (st : Store) (eid tid : String) (e : Entry) (st' : Store)
    (h : _finalize objects st eid tid = .ok (e, st')) :
    e.id = eid ∧
    st'.transactions = st.transactions ++
      [{ id := tid, entry_id := eid, actor_id := eid,
         action := TransactionAction.finalize }] := by
  unfold _finalize at h
  cases hg : _get_entry st eid with
  | error err => rw [hg] at h; exact absurd h (by simp)
  | ok ent =>
      rw [hg] at h
      have heid : ent.id = eid := (_get_entry_ok hg).2
      cases hobj : objects ent.id with
      | none => simp only [hobj] at h; exact absurd h (by simp)
      | some sz =>
          simp only [hobj, Except.ok.injEq, Prod.mk.injEq] at h
          obtain ⟨rfl, rfl⟩ := h
          exact ⟨heid, by simp [heid]⟩

def entryC10 : Entry :=
  { id := "e1", name := "up.bin", size := 0, type := EntryType.file,
    status := EntryStatus.pending, author_id := "u1", parent_id := none,
    is_deleted := false, is_deleted_since := none,
    permission := EntryPermission.private_, permission_inclusive := [] }

def storeC10 : Store :=
  { entries := [entryC10], transactions := [], users := [], sessions := [] }

def storeC10f : Store :=
  { entries := [{ entryC10 with size := 4096, status := EntryStatus.finalized }],
    transactions := [{ id := "t1", entry_id := "e1", actor_id := "e1",
                       action := TransactionAction.finalize }],
    users := [], sessions := [] }

/-- Witness for claim C10: finalizing a pending file against an object store
reporting size 4096 appends one `finalize` transaction whose `actor_id` is
the entry id `e1`, not a user id. -/
theorem finalize_actor_is_entry_id_witness :
    _finalize (fun _ => some (some 4096)) storeC10 "e1" "t1" =
      .ok ({ entryC10 with size := 4096, status := EntryStatus.finalized }, storeC10f) ∧
    storeC10f.transactions = storeC10.transactions ++
      [{ id := "t1", entry_id := "e1", actor_id := "e1",
         action := TransactionAction.finalize }] := by
  have h : _finalize (fun _ => some (some 4096)) storeC10 "e1" "t1" =
      .ok ({ entryC10 with size := 4096, status := EntryStatus.finalized }, storeC10f) := by rfl
  exact ⟨h, (finalize_actor_is_entry_id (fun _ => some (some 4096)) storeC10 "e1" "t1"
    { entryC10 with size := 4096, status := EntryStatus.finalized } storeC10f h).2⟩

end FYF
